import Mathlib

/-!
# Verification of the AI-Werewolf game engine

Shallow embedding of the core of the repository (an LLM-driven Werewolf
game): roles and capability flags (`src/core/role.py`), the game engine's
win condition, night/day death resolution, the witch and hunter actions,
the day-vote tally with PK tie-break (`src/core/game.py`), the werewolf
negotiation protocol, the agent memory manager and the regex decision
fallback (`src/core/player.py`).

Agent (LLM) replies are external inputs; they are modelled as explicit
oracle parameters (`Option Int` for an integer reply that may fail to
parse, `String` where the raw text matters).  All definitions follow the
Python source; spec-side predicates used to state properties are clearly
marked as such.
-/

namespace Wolf

/-- `RoleType` enum of `src/core/role.py`. -/
inductive RoleType where
  | werewolf | witch | seer | hunter | villager
  deriving DecidableEq, Repr

/-- `Faction` enum of `src/core/role.py`. -/
inductive Faction where
  | good | werewolf
  deriving DecidableEq, Repr

/-- A role: the `Role` pydantic model of `src/core/role.py` together with the
capability fields declared on its subclasses (`Witch.has_antidote`,
`Witch.has_poison`, `Witch.poison_used`, `Hunter.can_shoot`); fields that a
given role's class does not declare are simply never read for that role. -/
structure Role where
  type : RoleType
  faction : Faction
  has_antidote : Bool := true
  has_poison : Bool := true
  poison_used : Bool := false
  can_shoot : Bool := true
  deriving DecidableEq, Repr

/-- `class Werewolf(Role)` defaults. -/
def mkWerewolf : Role := { type := .werewolf, faction := .werewolf }

/-- `class Witch(Role)` defaults: `has_antidote = True`, `has_poison = True`,
`poison_used = False`. -/
def mkWitch : Role := { type := .witch, faction := .good }

/-- `class Seer(Role)` defaults. -/
def mkSeer : Role := { type := .seer, faction := .good }

/-- `class Hunter(Role)` defaults: `can_shoot = True`. -/
def mkHunter : Role := { type := .hunter, faction := .good }

/-- `class Villager(Role)` defaults. -/
def mkVillager : Role := { type := .villager, faction := .good }

/-- A seat: the engine-relevant fields of `Player` (`src/core/player.py`):
`player_id`, `role`, `is_alive`.  Ids are `Int` as in the Python source
(vote values reuse the same type, with `-1` as the abstain sentinel). -/
structure Player where
  player_id : Int
  role : Role
  is_alive : Bool
  deriving DecidableEq, Repr

/-- Winner values of `GameEngine.check_win_condition` /
`GameEngine.run`: the strings "好人阵营" (good faction), "狼人阵营"
(werewolf faction) and "Draw". -/
inductive Winner where
  | goodFaction | wolfFaction | draw
  deriving DecidableEq, Repr

/-- The engine state fields of `GameEngine` that the verified claims touch:
`players` (the dict, as an id-ordered list), `game_over`, `winner`. -/
structure GameState where
  players : List Player
  game_over : Bool := false
  winner : Option Winner := none
  deriving DecidableEq, Repr

/-- `GameEngine.get_alive_players`. -/
def get_alive_players (st : GameState) : List Int :=
  (st.players.filter (fun p => p.is_alive)).map (fun p => p.player_id)

/-- `self.players[pid]` dict lookup (as a partial lookup). -/
def getPlayer? (st : GameState) (pid : Int) : Option Player :=
  st.players.find? (fun p => p.player_id = pid)

/-- `GameEngine.check_win_condition` (`src/core/game.py`, lines 119-134):
if no living werewolf-faction player remains, the good faction wins; else
if living wolves outnumber-or-equal living good players, the werewolf
faction wins; else the game goes on.  Returns the updated state and the
boolean the Python function returns. -/
def check_win_condition (st : GameState) : GameState × Bool :=
  let alive_wolves := st.players.filter
    (fun p => p.is_alive && p.role.faction == Faction.werewolf)
  let alive_good := st.players.filter
    (fun p => p.is_alive && p.role.faction == Faction.good)
  if alive_wolves.isEmpty then
    ({ st with winner := some Winner.goodFaction, game_over := true }, true)
  else if alive_good.length ≤ alive_wolves.length then
    ({ st with winner := some Winner.wolfFaction, game_over := true }, true)
  else
    (st, false)

/-- C10: if no living werewolf-faction seat remains — even when no good-faction
seat is alive either — win-condition evaluation declares the good faction the
winner and sets game-over (never a werewolf win or a draw), because the
no-living-wolves check precedes the dominance comparison. -/
theorem c10_no_wolves_good_wins (st : GameState)
    (h : ∀ p ∈ st.players, p.is_alive → p.role.faction ≠ Faction.werewolf) :
    (check_win_condition st).1.winner = some Winner.goodFaction ∧
    (check_win_condition st).1.game_over = true ∧
    (check_win_condition st).2 = true := by
  have hfilter : st.players.filter
      (fun p => p.is_alive && p.role.faction == Faction.werewolf) = [] := by
    apply List.filter_eq_nil_iff.mpr
    intro p hp
    simp only [Bool.and_eq_true, beq_iff_eq]
    intro ⟨ha, hf⟩
    exact h p hp ha hf
  simp [check_win_condition, hfilter]

/-- Witness for C10: a state where both factions are extinct (a dead wolf and
a dead villager) is declared a good-faction win. -/
theorem c10_witness :
    (check_win_condition
      { players := [⟨1, mkWerewolf, false⟩, ⟨2, mkVillager, false⟩] }).1.winner
      = some Winner.goodFaction :=
  (c10_no_wolves_good_wins
    { players := [⟨1, mkWerewolf, false⟩, ⟨2, mkVillager, false⟩] }
    (by decide)).1

/-! ## Reply parsing and the day-vote tally (`run_day_phase`, lines 457-599) -/

/-- Numeric value of a list of decimal digit characters. -/
def digitsVal (cs : List Char) : Int :=
  cs.foldl (fun a c => a * 10 + ((c.toNat : Int) - ('0'.toNat : Int))) 0

/-- Strip surrounding whitespace, as `int(...)` does before parsing. -/
def strip_ws (cs : List Char) : List Char :=
  ((cs.dropWhile Char.isWhitespace).reverse.dropWhile
    Char.isWhitespace).reverse

/-- Python's `int(resp)` applied to a reply string: optional surrounding
whitespace, an optional sign, then one or more decimal digits; anything
else raises `ValueError`, modelled as `none`. -/
def parse_int? (s : String) : Option Int :=
  match strip_ws s.data with
  | [] => none
  | c :: rest =>
      if c = '-' then
        if rest ≠ [] ∧ rest.all Char.isDigit then some (-(digitsVal rest))
        else none
      else if c = '+' then
        if rest ≠ [] ∧ rest.all Char.isDigit then some (digitsVal rest)
        else none
      else
        if (c :: rest).all Char.isDigit then some (digitsVal (c :: rest))
        else none

/-- One voter's ballot from a raw reply (`run_day_phase`, lines 465-473 and
the PK re-vote, lines 543-551): `int(resp)` if it parses and lies in the
legal id list, else the abstain sentinel `-1`. -/
def vote_of_response (legal : List Int) (resp : String) : Int :=
  match parse_int? resp with
  | some t => if t ∈ legal then t else -1
  | none => -1

/-- The list of ballots cast in the main day vote (the values of the Python
`votes` dict, one per living voter). -/
def day_votes (alive_ids : List Int) (resps : List String) : List Int :=
  resps.map (vote_of_response alive_ids)

/-- The list of ballots cast in the PK re-vote, where the legal id set is
the list of tied seats. -/
def pk_votes_of (pk_ids : List Int) (pkResps : List String) : List Int :=
  pkResps.map (vote_of_response pk_ids)

/-- The distinct non-abstain ballot values: the keys of the Python `counts`
dict after `{k: v for k, v in counts.items() if k != -1}`. -/
def candidates (vs : List Int) : List Int :=
  vs.dedup.filter (fun t => t ≠ -1)

/-- `max(counts.values())` over the non-abstain counts. -/
def max_count (vs : List Int) : Nat :=
  (candidates vs).foldl (fun a t => max a (vs.count t)) 0

/-- `top = [pid for pid, cnt in counts.items() if cnt == max_votes]`. -/
def top_list (vs : List Int) : List Int :=
  (candidates vs).filter (fun t => vs.count t = max_count vs)

/-- Outcome of the day-vote portion of `run_day_phase`: a direct
elimination, a PK round with its tied option set and its outcome, or no
elimination at all. -/
inductive DayResult where
  | noElim
  | elim (t : Int)
  | pkElim (tied : List Int) (t : Int)
  | pkNoElim (tied : List Int)
  deriving DecidableEq, Repr

/-- The vote tally and PK escalation of `run_day_phase`
(`src/core/game.py`, lines 457-599), as a function of the raw replies of
the main vote and of the PK re-vote: count the non-abstain ballots; a
unique top seat (`len(top) == 1`) is eliminated (`top[0]`, here `headI`);
otherwise the tied seats go to PK, the re-vote is restricted to them, and
only a unique top seat of the re-vote is eliminated — a second tie
eliminates no one. -/
def run_day_vote (alive_ids : List Int) (resps pkResps : List String) :
    DayResult :=
  if day_votes alive_ids resps = [] then DayResult.noElim
  else if candidates (day_votes alive_ids resps) = [] then DayResult.noElim
  else if (top_list (day_votes alive_ids resps)).length = 1 then
    DayResult.elim (top_list (day_votes alive_ids resps)).headI
  else if candidates
      (pk_votes_of (top_list (day_votes alive_ids resps)) pkResps) = [] then
    DayResult.pkNoElim (top_list (day_votes alive_ids resps))
  else if (top_list
      (pk_votes_of (top_list (day_votes alive_ids resps)) pkResps)).length
      = 1 then
    DayResult.pkElim (top_list (day_votes alive_ids resps))
      (top_list
        (pk_votes_of (top_list (day_votes alive_ids resps)) pkResps)).headI
  else DayResult.pkNoElim (top_list (day_votes alive_ids resps))

/-- Spec-side predicate: seat `t` holds the strict plurality of the
non-abstain ballots `vs`. -/
def StrictPlurality (vs : List Int) (t : Int) : Prop :=
  t ≠ -1 ∧ t ∈ vs ∧ ∀ u ∈ vs, u ≠ -1 → u ≠ t → vs.count u < vs.count t

/-- Spec-side predicate: seats `t₁ ≠ t₂` tie for the plurality of the
non-abstain ballots `vs`. -/
def TiedPlurality (vs : List Int) (t₁ t₂ : Int) : Prop :=
  t₁ ≠ t₂ ∧ t₁ ≠ -1 ∧ t₂ ≠ -1 ∧ t₁ ∈ vs ∧ t₂ ∈ vs ∧
  vs.count t₁ = vs.count t₂ ∧
  ∀ u ∈ vs, u ≠ -1 → vs.count u ≤ vs.count t₁

instance decStrictPlurality (vs : List Int) (t : Int) :
    Decidable (StrictPlurality vs t) := by
  unfold StrictPlurality
  exact inferInstance

instance decTiedPlurality (vs : List Int) (t₁ t₂ : Int) :
    Decidable (TiedPlurality vs t₁ t₂) := by
  unfold TiedPlurality
  exact inferInstance

theorem mem_candidates {vs : List Int} {u : Int} :
    u ∈ candidates vs ↔ u ∈ vs ∧ u ≠ -1 := by
  simp [candidates, List.mem_filter, List.mem_dedup]

theorem nodup_candidates (vs : List Int) : (candidates vs).Nodup :=
  (List.nodup_dedup vs).filter _

theorem foldl_max_le {f : Int → Nat} {C : Nat} :
    ∀ (l : List Int) (a : Nat), a ≤ C → (∀ x ∈ l, f x ≤ C) →
      l.foldl (fun acc x => max acc (f x)) a ≤ C := by
  intro l
  induction l with
  | nil => intro a ha _; simpa using ha
  | cons y l ih =>
      intro a ha hall
      simp only [List.foldl_cons]
      exact ih _ (max_le ha (hall y (by simp)))
        (fun x hx => hall x (by simp [hx]))

theorem init_le_foldl_max {f : Int → Nat} :
    ∀ (l : List Int) (a : Nat), a ≤ l.foldl (fun acc x => max acc (f x)) a := by
  intro l
  induction l with
  | nil => intro a; simp
  | cons y l ih =>
      intro a
      simp only [List.foldl_cons]
      exact le_trans (le_max_left a (f y)) (ih _)

theorem le_foldl_max {f : Int → Nat} :
    ∀ (l : List Int) (a : Nat) (x : Int), x ∈ l →
      f x ≤ l.foldl (fun acc x => max acc (f x)) a := by
  intro l
  induction l with
  | nil => intro a x hx; simp at hx
  | cons y l ih =>
      intro a x hx
      simp only [List.foldl_cons]
      rcases List.mem_cons.mp hx with h | h
      · subst h
        calc f x ≤ max a (f x) := le_max_right _ _
          _ ≤ _ := init_le_foldl_max l _
      · exact ih _ x h

theorem count_le_max_count {vs : List Int} {u : Int}
    (hu : u ∈ candidates vs) : vs.count u ≤ max_count vs := by
  unfold max_count
  exact le_foldl_max (f := fun t => vs.count t) _ _ u hu

theorem max_count_le {vs : List Int} {C : Nat}
    (h : ∀ u ∈ candidates vs, vs.count u ≤ C) : max_count vs ≤ C := by
  unfold max_count
  exact foldl_max_le (f := fun t => vs.count t) _ _ (Nat.zero_le C) h

theorem filter_eq_singleton_of {p : Int → Bool} {l : List Int} {t : Int}
    (hnd : l.Nodup) (ht : t ∈ l) (hp : ∀ u ∈ l, p u = true ↔ u = t) :
    l.filter p = [t] := by
  induction l with
  | nil => simp at ht
  | cons a l ih =>
      rcases List.nodup_cons.mp hnd with ⟨hna, hnd'⟩
      by_cases hat : a = t
      · subst hat
        have hpa : p a = true := (hp a (by simp)).mpr rfl
        have hrest : l.filter p = [] := by
          apply List.filter_eq_nil_iff.mpr
          intro u hu hpu
          exact hna ((hp u (by simp [hu])).mp hpu ▸ hu)
        simp [List.filter_cons, hpa, hrest]
      · have ht' : t ∈ l := by
          rcases List.mem_cons.mp ht with h | h
          · exact absurd h.symm hat
          · exact h
        have hpa : p a = false := by
          cases h : p a
          · rfl
          · exact absurd ((hp a (by simp)).mp h) hat
        simp only [List.filter_cons, hpa, Bool.false_eq_true, if_false]
        exact ih hnd' ht' (fun u hu => hp u (by simp [hu]))

theorem max_count_eq_of_strict {vs : List Int} {t : Int}
    (h : StrictPlurality vs t) : max_count vs = vs.count t := by
  obtain ⟨ht1, ht2, h3⟩ := h
  apply le_antisymm
  · apply max_count_le
    intro u hu
    rcases mem_candidates.mp hu with ⟨huv, hun⟩
    by_cases hut : u = t
    · subst hut; exact le_refl _
    · exact le_of_lt (h3 u huv hun hut)
  · exact count_le_max_count (mem_candidates.mpr ⟨ht2, ht1⟩)

theorem top_list_eq_of_strict {vs : List Int} {t : Int}
    (h : StrictPlurality vs t) : top_list vs = [t] := by
  have hmax := max_count_eq_of_strict h
  obtain ⟨ht1, ht2, h3⟩ := h
  apply filter_eq_singleton_of (nodup_candidates vs)
    (mem_candidates.mpr ⟨ht2, ht1⟩)
  intro u hu
  rcases mem_candidates.mp hu with ⟨huv, hun⟩
  simp only [decide_eq_true_eq]
  constructor
  · intro hcount
    by_contra hut
    have := h3 u huv hun hut
    omega
  · intro h; subst h; omega

theorem strict_of_top_singleton {vs : List Int} {t : Int}
    (h : top_list vs = [t]) : StrictPlurality vs t := by
  have htmem : t ∈ top_list vs := by rw [h]; simp
  have htf := List.mem_filter.mp htmem
  have htc : t ∈ candidates vs := htf.1
  have htcount : vs.count t = max_count vs := by simpa using htf.2
  rcases mem_candidates.mp htc with ⟨htv, htn⟩
  refine ⟨htn, htv, ?_⟩
  intro u huv hun hut
  have huc : u ∈ candidates vs := mem_candidates.mpr ⟨huv, hun⟩
  have hle : vs.count u ≤ max_count vs := count_le_max_count huc
  rcases lt_or_eq_of_le hle with hlt | heq
  · omega
  · exfalso
    have : u ∈ top_list vs := List.mem_filter.mpr ⟨huc, by simp [heq]⟩
    rw [h] at this
    simp at this
    exact hut this

theorem max_count_eq_of_tied {vs : List Int} {t₁ t₂ : Int}
    (h : TiedPlurality vs t₁ t₂) : max_count vs = vs.count t₁ := by
  obtain ⟨_, h1, _, hv1, _, _, hall⟩ := h
  apply le_antisymm
  · apply max_count_le
    intro u hu
    rcases mem_candidates.mp hu with ⟨huv, hun⟩
    exact hall u huv hun
  · exact count_le_max_count (mem_candidates.mpr ⟨hv1, h1⟩)

theorem mem_top_of_tied {vs : List Int} {t₁ t₂ : Int}
    (h : TiedPlurality vs t₁ t₂) :
    t₁ ∈ top_list vs ∧ t₂ ∈ top_list vs := by
  have hmax := max_count_eq_of_tied h
  obtain ⟨_, h1, h2, hv1, hv2, hcnt, _⟩ := h
  constructor
  · exact List.mem_filter.mpr
      ⟨mem_candidates.mpr ⟨hv1, h1⟩, by simp [hmax]⟩
  · exact List.mem_filter.mpr
      ⟨mem_candidates.mpr ⟨hv2, h2⟩, by simp [hmax, hcnt]⟩

theorem top_length_ne_one_of_tied {vs : List Int} {t₁ t₂ : Int}
    (h : TiedPlurality vs t₁ t₂) : (top_list vs).length ≠ 1 := by
  intro hlen
  obtain ⟨x, hx⟩ := List.length_eq_one.mp hlen
  have hm := mem_top_of_tied h
  rw [hx] at hm
  simp at hm
  exact h.1 (hm.1.trans hm.2.symm)

/-- C3: over the living seats' ballots, a strict plurality seat is exactly
the one eliminated; if two or more seats tie for the plurality, a PK round
runs with the option set restricted to the tied seats (both tied seats are
in it), a seat is eliminated in the PK only when the PK re-vote has a
strict plurality (and then exactly that seat), and when the PK re-vote has
no strict plurality no one is eliminated and the day ends. -/
theorem c3_day_vote_plurality (alive_ids : List Int)
    (resps pkResps : List String) :
    (∀ t, StrictPlurality (day_votes alive_ids resps) t →
      run_day_vote alive_ids resps pkResps = DayResult.elim t) ∧
    (∀ t₁ t₂, TiedPlurality (day_votes alive_ids resps) t₁ t₂ →
      (t₁ ∈ top_list (day_votes alive_ids resps) ∧
       t₂ ∈ top_list (day_votes alive_ids resps)) ∧
      (∀ t, StrictPlurality
          (pk_votes_of (top_list (day_votes alive_ids resps)) pkResps) t →
        run_day_vote alive_ids resps pkResps =
          DayResult.pkElim (top_list (day_votes alive_ids resps)) t) ∧
      ((∀ t, ¬ StrictPlurality
          (pk_votes_of (top_list (day_votes alive_ids resps)) pkResps) t) →
        run_day_vote alive_ids resps pkResps =
          DayResult.pkNoElim (top_list (day_votes alive_ids resps)))) := by
  constructor
  · intro t h
    have htop := top_list_eq_of_strict h
    obtain ⟨htn, htv, _⟩ := h
    have hne : day_votes alive_ids resps ≠ [] := List.ne_nil_of_mem htv
    have hcne : candidates (day_votes alive_ids resps) ≠ [] :=
      List.ne_nil_of_mem (mem_candidates.mpr ⟨htv, htn⟩)
    unfold run_day_vote
    rw [if_neg hne, if_neg hcne, if_pos (by rw [htop]; rfl), htop]
    rfl
  · intro t₁ t₂ hties
    have hmem := mem_top_of_tied hties
    have hlen := top_length_ne_one_of_tied hties
    have hne : day_votes alive_ids resps ≠ [] :=
      List.ne_nil_of_mem hties.2.2.2.1
    have hcne : candidates (day_votes alive_ids resps) ≠ [] :=
      List.ne_nil_of_mem (mem_candidates.mpr ⟨hties.2.2.2.1, hties.2.1⟩)
    refine ⟨hmem, ?_, ?_⟩
    · intro t hpk
      have hpktop := top_list_eq_of_strict hpk
      obtain ⟨hptn, hptv, _⟩ := hpk
      have hpkcne : candidates
          (pk_votes_of (top_list (day_votes alive_ids resps)) pkResps)
          ≠ [] := List.ne_nil_of_mem (mem_candidates.mpr ⟨hptv, hptn⟩)
      unfold run_day_vote
      rw [if_neg hne, if_neg hcne, if_neg hlen, if_neg hpkcne,
        if_pos (by rw [hpktop]; rfl), hpktop]
      rfl
    · intro hnone
      have hlen2 : (top_list
          (pk_votes_of (top_list (day_votes alive_ids resps)) pkResps)).length
          ≠ 1 := by
        intro h1
        obtain ⟨x, hx⟩ := List.length_eq_one.mp h1
        exact hnone x (strict_of_top_singleton hx)
      unfold run_day_vote
      rw [if_neg hne, if_neg hcne, if_neg hlen]
      by_cases hpkc : candidates
          (pk_votes_of (top_list (day_votes alive_ids resps)) pkResps) = []
      · rw [if_pos hpkc]
      · rw [if_neg hpkc, if_neg hlen2]

/-- Witness for C3: with living seats 1,2,3, main-vote replies "1","1","2"
(seat 1 holds the strict plurality), seat 1 is eliminated; and with
replies "1","2" followed by a PK re-vote "2","2","2", the PK eliminates
seat 2 out of the tied pair. -/
theorem c3_witness :
    run_day_vote [1, 2, 3] ["1", "1", "2"] [] = DayResult.elim 1 ∧
    run_day_vote [1, 2, 3] ["1", "2"] ["2", "2", "2"] =
      DayResult.pkElim [1, 2] 2 :=
  ⟨(c3_day_vote_plurality [1, 2, 3] ["1", "1", "2"] []).1 1 (by decide),
   by
    have h := ((c3_day_vote_plurality [1, 2, 3] ["1", "2"]
      ["2", "2", "2"]).2 1 2 (by decide)).2.1 2 (by decide)
    simpa using h⟩

/-! ## Werewolf negotiation protocol (`_werewolf_action`, lines 208-330) -/

/-- The valid votes collected from one round of wolf replies (`ask_wolf` /
the in-round `try: target = int(resp); if target in valid_targets` check):
replies that fail to parse or name an illegal target contribute nothing. -/
def collect_votes (valid_targets : List Int) (resps : List String) :
    List Int :=
  resps.filterMap (fun r =>
    match parse_int? r with
    | some t => if t ∈ valid_targets then some t else none
    | none => none)

/-- `max(set(final_votes), key=final_votes.count)`: the first-encountered
distinct vote value with the greatest multiplicity (the iteration order of
a Python set is arbitrary; here the first-occurrence order is used, which
realises the spec's "breaking ties arbitrarily"). -/
def argmax_count (vs : List Int) : Option Int :=
  vs.dedup.foldl (fun best t =>
    match best with
    | none => some t
    | some b => if vs.count b < vs.count t then some t else best) none

/-- The sequential negotiation rounds of `_werewolf_action` (lines
273-330): each round collects the valid votes; `unique_targets` (the
dedup) of size one means consensus and returns that target; otherwise the
round's votes replace `votes` and the next round runs; after the last
round the forced-majority fallback applies (`None` if the final round had
no valid votes). -/
def negotiate_rounds (valid_targets : List Int) :
    List (List String) → List Int → Option Int
  | [], votes => if votes = [] then none else argmax_count votes
  | r :: rs, _votes =>
      let cur := collect_votes valid_targets r
      if cur.dedup.length = 1 then cur.dedup.head?
      else negotiate_rounds valid_targets rs cur

/-- `_werewolf_action`'s target selection as a function of the wolves'
raw replies: the parallel blind round first (consensus check on
`unique_targets`), then the sequential negotiation rounds. -/
def werewolf_negotiate (valid_targets : List Int) (blind : List String)
    (rounds : List (List String)) : Option Int :=
  let votes := collect_votes valid_targets blind
  if votes.dedup.length = 1 then votes.dedup.head?
  else negotiate_rounds valid_targets rounds votes

/-- The valid votes of round `k`, counting the blind round as round 0 and
the `k`-th sequential negotiation round as round `k+1`. -/
def round_votes_at (valid_targets : List Int) (blind : List String)
    (rounds : List (List String)) : Nat → List Int
  | 0 => collect_votes valid_targets blind
  | k + 1 => collect_votes valid_targets (rounds.getD k [])

/-- Spec-side predicate: the round produced at least one valid vote and
every valid vote names `t`. -/
def ConsensusOn (vs : List Int) (t : Int) : Prop :=
  vs ≠ [] ∧ ∀ u ∈ vs, u = t

/-- Spec-side predicate: the round produced at least one valid vote and
all valid votes agree. -/
def Consensus (vs : List Int) : Prop :=
  vs ≠ [] ∧ ∀ u ∈ vs, ∀ v ∈ vs, u = v

instance decConsensusOn (vs : List Int) (t : Int) :
    Decidable (ConsensusOn vs t) := by
  unfold ConsensusOn
  exact inferInstance

instance decConsensus (vs : List Int) : Decidable (Consensus vs) := by
  unfold Consensus
  exact inferInstance

theorem dedup_eq_singleton_of_all_eq :
    ∀ (vs : List Int) (t : Int), vs ≠ [] → (∀ u ∈ vs, u = t) →
      vs.dedup = [t] := by
  intro vs t
  induction vs with
  | nil => simp
  | cons a l ih =>
      intro _ hall
      have ha : a = t := hall a (by simp)
      subst ha
      by_cases hl : l = []
      · subst hl; simp
      · have hmem : a ∈ l := by
          obtain ⟨u, l', rfl⟩ := List.exists_cons_of_ne_nil hl
          have : u = a := hall u (by simp)
          simp [this]
        rw [List.dedup_cons_of_mem hmem]
        exact ih hl (fun u hu => hall u (by simp [hu]))

theorem consensus_of_dedup_length_one {vs : List Int}
    (h : vs.dedup.length = 1) : Consensus vs := by
  obtain ⟨x, hx⟩ := List.length_eq_one.mp h
  have hne : vs ≠ [] := by
    intro h0
    rw [h0] at hx
    simp at hx
  refine ⟨hne, ?_⟩
  intro u hu v hv
  have hu' : u ∈ vs.dedup := List.mem_dedup.mpr hu
  have hv' : v ∈ vs.dedup := List.mem_dedup.mpr hv
  rw [hx] at hu' hv'
  simp at hu' hv'
  rw [hu', hv']

theorem consensusOn_dedup {vs : List Int} {t : Int}
    (h : ConsensusOn vs t) : vs.dedup = [t] :=
  dedup_eq_singleton_of_all_eq vs t h.1 h.2

theorem negotiate_rounds_consensus (valid_targets : List Int) :
    ∀ (rounds : List (List String)) (votes : List Int) (k : Nat) (t : Int),
      k < rounds.length →
      (∀ j < k,
        ¬ Consensus (collect_votes valid_targets (rounds.getD j []))) →
      ConsensusOn (collect_votes valid_targets (rounds.getD k [])) t →
      negotiate_rounds valid_targets rounds votes = some t := by
  intro rounds
  induction rounds with
  | nil =>
      intro votes k t hk
      simp at hk
  | cons r rs ih =>
      intro votes k t hk hprev hcons
      cases k with
      | zero =>
          simp only [List.getD_cons_zero] at hcons
          have hd := consensusOn_dedup hcons
          simp only [negotiate_rounds, hd]
          rfl
      | succ k' =>
          have hnc : ¬ Consensus (collect_votes valid_targets r) := by
            have h0 := hprev 0 (Nat.succ_pos k')
            simpa using h0
          have hlen : (collect_votes valid_targets r).dedup.length ≠ 1 :=
            fun h1 => hnc (consensus_of_dedup_length_one h1)
          simp only [negotiate_rounds]
          rw [if_neg hlen]
          refine ih _ k' t (by simpa using hk) ?_ (by simpa using hcons)
          intro j hj
          have := hprev (j + 1) (by omega)
          simpa using this

/-- C4: for any number of wolves and any completed negotiation round (the
blind round, index 0, or any reached sequential round), if every wolf that
produced a valid vote in that round chose the same target `t` (and at
least one did), the protocol returns exactly `t` as the final wolf-kill
target. -/
theorem c4_unanimous_round_returned (valid_targets : List Int)
    (blind : List String) (rounds : List (List String)) (k : Nat) (t : Int)
    (hk : k ≤ rounds.length)
    (hprev : ∀ j < k,
      ¬ Consensus (round_votes_at valid_targets blind rounds j))
    (hcons : ConsensusOn (round_votes_at valid_targets blind rounds k) t) :
    werewolf_negotiate valid_targets blind rounds = some t := by
  cases k with
  | zero =>
      have hd := consensusOn_dedup hcons
      simp only [round_votes_at] at hd
      simp only [werewolf_negotiate, hd]
      rfl
  | succ k' =>
      have hnc : ¬ Consensus (collect_votes valid_targets blind) := by
        have h0 := hprev 0 (Nat.succ_pos k')
        simpa [round_votes_at] using h0
      have hlen : (collect_votes valid_targets blind).dedup.length ≠ 1 :=
        fun h1 => hnc (consensus_of_dedup_length_one h1)
      simp only [werewolf_negotiate]
      rw [if_neg hlen]
      refine negotiate_rounds_consensus valid_targets rounds _ k' t
        (by omega) ?_ (by simpa [round_votes_at] using hcons)
      intro j hj
      have := hprev (j + 1) (by omega)
      simpa [round_votes_at] using this

/-- Witness for C4: two wolves disagree in the blind round ("1" vs "2"),
then both choose "3" in the first negotiation round; the protocol returns
target 3. -/
theorem c4_witness :
    werewolf_negotiate [1, 2, 3] ["1", "2"] [["3", "3"]] = some 3 :=
  c4_unanimous_round_returned [1, 2, 3] ["1", "2"] [["3", "3"]] 1 3
    (by decide) (by decide) (by decide)

/-! ## Night resolution, witch and hunter actions
(`run_night_phase`, `_witch_action`, `_hunter_action`, and the
night-death block of `run_day_phase`) -/

/-- The death-cause strings "wolf" / "poison" of the `deaths` dict in
`run_night_phase`. -/
inductive DeathReason where
  | wolf | poison
  deriving DecidableEq, Repr

/-- `next((p for p in self.players.values() if p.role.type == RoleType.WITCH),
None)`. -/
def find_witch? (st : GameState) : Option Player :=
  st.players.find? (fun p => p.role.type = RoleType.witch)

/-- The mutation `witch.role.poison_used = True` on the engine's player
dict. -/
def set_poison_used (st : GameState) (wid : Int) : GameState :=
  { st with players := st.players.map (fun p =>
      if p.player_id = wid then
        { p with role := { p.role with poison_used := true } }
      else p) }

/-- `player.update_status(alive)` on the engine's player dict. -/
def update_status (st : GameState) (pid : Int) (alive : Bool) : GameState :=
  { st with players := st.players.map (fun p =>
      if p.player_id = pid then { p with is_alive := alive } else p) }

/-- Result of `GameEngine._witch_action`: the returned `(save_id,
poison_id)` pair, the possibly-updated engine state, and — for the
verification of the option set — the legal id list offered for the poison
decision (`none` when the witch is not solicited for a poison). -/
structure WitchResult where
  save_id : Option Int
  poison_id : Option Int
  state : GameState
  poison_options : Option (List Int)
  deriving DecidableEq, Repr

/-- The save decision of `_witch_action` (lines 341-348): only solicited
when there is a wolf-kill target, and the save happens exactly when the
reply names that target (`int(resp) == target_id`). -/
def witch_save_id (target_id saveResp : Option Int) : Option Int :=
  match target_id with
  | some tid =>
      match saveResp with
      | some r => if r = tid then some tid else none
      | none => none
  | none => none

/-- `GameEngine._witch_action` (`src/core/game.py`, lines 332-365), with
the witch's replies as oracles (`none` = a reply that fails `int(...)`):
no witch or a dead witch does nothing; the save decision is
`witch_save_id`; the poison is solicited whenever `poison_used` is still
false, with option set `alive_ids` (all living seats), and a valid in-set
reply poisons that seat and sets `poison_used`. -/
def _witch_action (st : GameState) (target_id : Option Int)
    (saveResp poisonResp : Option Int) : WitchResult :=
  match find_witch? st with
  | none => ⟨none, none, st, none⟩
  | some witch =>
      if witch.is_alive = false then ⟨none, none, st, none⟩
      else
        let save_id := witch_save_id target_id saveResp
        let alive_ids := get_alive_players st
        if witch.role.poison_used then ⟨save_id, none, st, none⟩
        else
          match poisonResp with
          | some q =>
              if q ∈ alive_ids then
                ⟨save_id, some q, set_poison_used st witch.player_id,
                  some alive_ids⟩
              else ⟨save_id, none, st, some alive_ids⟩
          | none => ⟨save_id, none, st, some alive_ids⟩

/-- `GameEngine._hunter_action` (lines 601-614): the hunter chooses among
the living seats other than himself; an unparseable or out-of-set reply
yields no shot. -/
def _hunter_action (st : GameState) (hunter_id : Int) (resp : Option Int) :
    Option Int :=
  let alive := (get_alive_players st).filter (fun q => q ≠ hunter_id)
  if alive = [] then none
  else
    match resp with
    | some t => if t ∈ alive then some t else none
    | none => none

/-- The `deaths` dict of `run_night_phase` (lines 179-185) as an
association list in insertion order: the wolf kill first (unless saved),
then the poison victim; a poison landing on the wolf-kill seat overwrites
that seat's reason with "poison". -/
def night_deaths (target_id save_id poison_id : Option Int) :
    List (Int × DeathReason) :=
  let d1 : List (Int × DeathReason) :=
    match target_id with
    | some t => if save_id ≠ some t then [(t, DeathReason.wolf)] else []
    | none => []
  match poison_id with
  | some q =>
      if d1.any (fun e => e.1 = q) then
        d1.map (fun e => if e.1 = q then (q, DeathReason.poison) else e)
      else d1 ++ [(q, DeathReason.poison)]
  | none => d1

/-- The hunter-trigger loop of `run_night_phase` (lines 187-203): every
death is appended to `final_dead`; a dead hunter whose reason is not
"poison" is solicited for a shot and a valid shot is appended too.
Returns `final_dead` (before dedup) and the list of hunters solicited. -/
def night_hunter_loop (st : GameState) (hunterResp : Int → Option Int)
    (deaths : List (Int × DeathReason)) : List Int × List Int :=
  deaths.foldl (fun acc pr =>
    let fd := acc.1 ++ [pr.1]
    match getPlayer? st pr.1 with
    | none => (fd, acc.2)
    | some p =>
        if p.role.type = RoleType.hunter then
          if pr.2 = DeathReason.poison then (fd, acc.2)
          else
            match _hunter_action st pr.1 (hunterResp pr.1) with
            | some shot => (fd ++ [shot], acc.2 ++ [pr.1])
            | none => (fd, acc.2 ++ [pr.1])
        else (fd, acc.2)) ([], [])

/-- `run_night_phase` (lines 166-206), given the already-negotiated wolf
target and the witch and hunter reply oracles: the witch acts, the deaths
dict is computed, hunters are processed, and `list(set(final_dead))` is
returned (here `dedup`) together with the updated state and the list of
hunters solicited during the night. -/
def run_night_phase (st : GameState) (target_id : Option Int)
    (saveResp poisonResp : Option Int) (hunterResp : Int → Option Int) :
    List Int × GameState × List Int :=
  let w := _witch_action st target_id saveResp poisonResp
  let deaths := night_deaths target_id w.save_id w.poison_id
  let r := night_hunter_loop w.state hunterResp deaths
  (r.1.dedup, w.state, r.2)

/-- The death-announcement loop at the top of `run_day_phase` (lines
393-400): each night victim's liveness flips to dead, one by one. -/
def announce_deaths (st : GameState) (dead_at_night : List Int) :
    GameState :=
  dead_at_night.foldl (fun st pid => update_status st pid false) st

/-- The second hunter block of `run_day_phase` (lines 408-427), running
after the night deaths were applied: every seat of `dead_at_night` whose
role is Hunter is solicited for a shot — the death cause is not available
here, so poisoned hunters are solicited too, and hunters who already shot
during `run_night_phase` are solicited a second time.  (The Python
`any(...)` generator shadows `pid`, and the `pid in dead_at_night` test
repeats the loop condition, so both guards always hold for a hunter of the
list.)  A valid shot victim's liveness flips immediately.  Returns the
updated state and the solicited hunters. -/
def day_night_hunter_block (st : GameState) (dead_at_night : List Int)
    (hunterResp : Int → Option Int) : GameState × List Int :=
  dead_at_night.foldl (fun acc pid =>
    match getPlayer? acc.1 pid with
    | none => acc
    | some p =>
        if p.role.type = RoleType.hunter then
          if dead_at_night.any (fun pid2 =>
              match getPlayer? acc.1 pid2 with
              | some q => decide (q.role.type = RoleType.hunter) &&
                  decide (pid2 ∈ dead_at_night)
              | none => false) then
            if pid ∈ dead_at_night then
              match _hunter_action acc.1 pid (hunterResp pid) with
              | some shot => (update_status acc.1 shot false, acc.2 ++ [pid])
              | none => (acc.1, acc.2 ++ [pid])
            else acc
          else acc
        else acc) (st, [])

/-- The night-death prefix of `run_day_phase` (lines 392-430): when
nobody died at night nothing happens; otherwise the deaths are applied
and the hunter block runs.  (Last words and public-fact strings do not
touch the tracked state.) -/
def day_process_night_deaths (st : GameState) (dead_at_night : List Int)
    (hunterResp : Int → Option Int) : GameState × List Int :=
  if dead_at_night = [] then (st, [])
  else
    let st1 := announce_deaths st dead_at_night
    day_night_hunter_block st1 dead_at_night hunterResp

/-- Demo seating: a wolf, the witch, a hunter, a villager — all alive. -/
def demo_state_hunter : GameState :=
  { players := [⟨1, mkWerewolf, true⟩, ⟨2, mkWitch, true⟩,
      ⟨3, mkHunter, true⟩, ⟨4, mkVillager, true⟩] }

/-- Demo seating: a wolf, the witch, two villagers — all alive. -/
def demo_state_basic : GameState :=
  { players := [⟨1, mkWerewolf, true⟩, ⟨2, mkWitch, true⟩,
      ⟨3, mkVillager, true⟩, ⟨4, mkVillager, true⟩] }

/-- C1 (code bug): the witch poisons hunter seat 3 while the wolves kill
seat 4.  During the night the poisoned hunter is correctly not solicited
(the night loop checks the reason), but the second hunter block of
`run_day_phase` has no access to the death cause: in the same night-day
cycle it solicits the poisoned hunter after all, and the hunter's shot
kills seat 1 — contradicting both the spec and the night-phase code's own
"poisoned hunter cannot shoot" rule. -/
theorem c1_poisoned_hunter_shot_in_day :
    (run_night_phase demo_state_hunter (some 4) none (some 3)
      (fun _ => some 1)).2.2 = [] ∧
    (run_night_phase demo_state_hunter (some 4) none (some 3)
      (fun _ => some 1)).1 = [4, 3] ∧
    (day_process_night_deaths
      (run_night_phase demo_state_hunter (some 4) none (some 3)
        (fun _ => some 1)).2.1
      [4, 3] (fun _ => some 1)).2 = [3] ∧
    ((getPlayer?
      (day_process_night_deaths
        (run_night_phase demo_state_hunter (some 4) none (some 3)
          (fun _ => some 1)).2.1
        [4, 3] (fun _ => some 1)).1 1).map Player.is_alive) = some false := by
  decide

/-- C5 (code bug): a wolf-killed hunter (seat 3) is solicited for a shot
during `run_night_phase` (and kills seat 4), then — because `can_shoot`
is never checked or consumed — the hunter block of `run_day_phase`
solicits the very same hunter a second time for the same death, and the
second shot kills seat 1; `can_shoot` is still `true` afterwards. -/
theorem c5_hunter_double_solicited :
    (run_night_phase demo_state_hunter (some 3) none none
      (fun _ => some 4)).2.2 = [3] ∧
    (run_night_phase demo_state_hunter (some 3) none none
      (fun _ => some 4)).1 = [3, 4] ∧
    (day_process_night_deaths
      (run_night_phase demo_state_hunter (some 3) none none
        (fun _ => some 4)).2.1 [3, 4] (fun _ => some 1)).2 = [3] ∧
    ((getPlayer?
      (day_process_night_deaths
        (run_night_phase demo_state_hunter (some 3) none none
          (fun _ => some 4)).2.1 [3, 4] (fun _ => some 1)).1 1).map
      Player.is_alive) = some false ∧
    ((getPlayer?
      (day_process_night_deaths
        (run_night_phase demo_state_hunter (some 3) none none
          (fun _ => some 4)).2.1 [3, 4] (fun _ => some 1)).1 3).map
      (fun p => p.role.can_shoot)) = some true := by
  decide

/-- C2 (code bug): `_witch_action` never reads or clears `has_antidote`.
The witch saves the wolf-kill target on night 1, her `has_antidote` flag
is still `true` afterwards, and on a second night she successfully saves
again — the antidote is not consumed, contradicting the single-use
capability flag declared in `src/core/role.py`. -/
theorem c2_antidote_never_consumed :
    (_witch_action demo_state_basic (some 3) (some 3) none).save_id
      = some 3 ∧
    ((find_witch?
      (_witch_action demo_state_basic (some 3) (some 3) none).state).map
      (fun p => p.role.has_antidote)) = some true ∧
    (_witch_action
      (_witch_action demo_state_basic (some 3) (some 3) none).state
      (some 4) (some 4) none).save_id = some 4 := by
  decide

/-- Counterexample to C6 as stated: on a night where the witch saves seat
3, the option set offered for her poison decision is all living seats
`[1, 2, 3, 4]` — the just-saved seat 3 is NOT excluded. -/
theorem c6_counterexample_saved_target_offered :
    (_witch_action demo_state_basic (some 3) (some 3) none).save_id
      = some 3 ∧
    (_witch_action demo_state_basic (some 3) (some 3) none).poison_options
      = some [1, 2, 3, 4] ∧
    3 ∈ ((_witch_action demo_state_basic (some 3) (some 3)
      none).poison_options.getD []) := by
  decide

theorem find_witch_set_poison_used (st : GameState) (wid : Int) :
    find_witch? (set_poison_used st wid) =
      (find_witch? st).map (fun p =>
        if p.player_id = wid then
          { p with role := { p.role with poison_used := true } }
        else p) := by
  unfold find_witch? set_poison_used
  rw [List.find?_map]
  congr 1
  congr 1
  funext p
  by_cases h : p.player_id = wid <;> simp [h, Function.comp]

/-- C6 as amended: the poison option set is ALL living seats (the
just-saved target is not excluded), and the poison is single-use: a valid
poison targets a living seat and permanently sets the witch's
`poison_used` flag, and once `poison_used` holds the witch is neither
solicited for a poison nor able to poison. -/
theorem c6_amended_poison_once_over_all_living (st : GameState)
    (target_id saveResp poisonResp : Option Int) :
    (∀ opts,
      (_witch_action st target_id saveResp poisonResp).poison_options
        = some opts → opts = get_alive_players st) ∧
    (∀ q,
      (_witch_action st target_id saveResp poisonResp).poison_id = some q →
      q ∈ get_alive_players st ∧
      ∀ w, find_witch?
          ((_witch_action st target_id saveResp poisonResp).state)
          = some w → w.role.poison_used = true) ∧
    (∀ w, find_witch? st = some w → w.role.poison_used = true →
      (_witch_action st target_id saveResp poisonResp).poison_id = none ∧
      (_witch_action st target_id saveResp poisonResp).poison_options
        = none) := by
  cases hfw : find_witch? st with
  | none =>
      have hr : _witch_action st target_id saveResp poisonResp
          = ⟨none, none, st, none⟩ := by
        simp [_witch_action, hfw]
      rw [hr]
      refine ⟨?_, ?_, ?_⟩
      · intro opts h; simp at h
      · intro q h; simp at h
      · intro w hw; simp at hw
  | some witch =>
      by_cases halive : witch.is_alive
      · by_cases hpu : witch.role.poison_used
        · have hr : _witch_action st target_id saveResp poisonResp
              = ⟨witch_save_id target_id saveResp, none, st, none⟩ := by
            simp [_witch_action, hfw, halive, hpu]
          rw [hr]
          refine ⟨?_, ?_, ?_⟩
          · intro opts h; simp at h
          · intro q h; simp at h
          · intro w _ _; exact ⟨rfl, rfl⟩
        · cases poisonResp with
          | none =>
              have hr : _witch_action st target_id saveResp none
                  = ⟨witch_save_id target_id saveResp, none, st,
                      some (get_alive_players st)⟩ := by
                simp [_witch_action, hfw, halive, hpu]
              rw [hr]
              refine ⟨?_, ?_, ?_⟩
              · intro opts h
                simp only [Option.some.injEq] at h
                exact h.symm
              · intro q h; simp at h
              · intro w hw hwpu
                simp only [Option.some.injEq] at hw
                rw [← hw] at hwpu
                exact absurd hwpu hpu
          | some q =>
              by_cases hmem : q ∈ get_alive_players st
              · have hr : _witch_action st target_id saveResp (some q)
                    = ⟨witch_save_id target_id saveResp, some q,
                        set_poison_used st witch.player_id,
                        some (get_alive_players st)⟩ := by
                  simp [_witch_action, hfw, halive, hpu, hmem]
                rw [hr]
                refine ⟨?_, ?_, ?_⟩
                · intro opts h
                  simp only [Option.some.injEq] at h
                  exact h.symm
                · intro q' h
                  simp only [Option.some.injEq] at h
                  subst h
                  refine ⟨hmem, ?_⟩
                  intro w hw
                  rw [find_witch_set_poison_used, hfw] at hw
                  simp at hw
                  simp [← hw]
                · intro w hw hwpu
                  simp only [Option.some.injEq] at hw
                  rw [← hw] at hwpu
                  exact absurd hwpu hpu
              · have hr : _witch_action st target_id saveResp (some q)
                    = ⟨witch_save_id target_id saveResp, none, st,
                        some (get_alive_players st)⟩ := by
                  simp [_witch_action, hfw, halive, hpu, hmem]
                rw [hr]
                refine ⟨?_, ?_, ?_⟩
                · intro opts h
                  simp only [Option.some.injEq] at h
                  exact h.symm
                · intro q' h; simp at h
                · intro w hw hwpu
                  simp only [Option.some.injEq] at hw
                  rw [← hw] at hwpu
                  exact absurd hwpu hpu
      · have halive' : witch.is_alive = false := by
          simpa using halive
        have hr : _witch_action st target_id saveResp poisonResp
            = ⟨none, none, st, none⟩ := by
          simp [_witch_action, hfw, halive']
        rw [hr]
        refine ⟨?_, ?_, ?_⟩
        · intro opts h; simp at h
        · intro q h; simp at h
        · intro w _ _; exact ⟨rfl, rfl⟩

/-- Witness for C6 (amended): with no save and poison reply "4", the
poison lands on living seat 4 and the witch's `poison_used` flag is set in
the resulting state. -/
theorem c6_witness :
    4 ∈ get_alive_players demo_state_basic ∧
    ∀ w, find_witch?
        ((_witch_action demo_state_basic none none (some 4)).state)
        = some w → w.role.poison_used = true :=
  (c6_amended_poison_once_over_all_living demo_state_basic none none
    (some 4)).2.1 4 (by decide)

/-! ## The agent memory manager (`Player._manage_memory`, lines 37-74) -/

/-- The retention loop of `_manage_memory` (lines 61-67), processing the
non-system entries most recent first (the Python loop walks
`reversed(recent_memory)`): an entry is kept while
`current_tokens + msg_tokens ≤ max_tokens`, and the loop breaks at the
first entry that would overflow. -/
def take_within_budget {α : Type} (cost : α → Nat) (max_tokens : Nat) :
    Nat → List α → List α
  | _, [] => []
  | current, m :: rest =>
      if current + cost m > max_tokens then []
      else m :: take_within_budget cost max_tokens (current + cost m) rest

/-- `Player._manage_memory` over an abstract entry type with a per-entry
token cost (the tiktoken `count_tokens` of one message) and the configured
`max_memory_tokens` budget: a history of length ≤ 1 is returned unchanged;
otherwise the leading system entry is always kept, the most recent
entries that fit are kept (oldest non-system entries dropped first), and
the stored history is REPLACED by `[system_msg] + kept_msgs`. -/
def _manage_memory {α : Type} (cost : α → Nat) (max_tokens : Nat) :
    List α → List α
  | [] => []
  | [m] => [m]
  | system_msg :: recent =>
      system_msg ::
        (take_within_budget cost max_tokens (cost system_msg)
          recent.reverse).reverse

/-- Total estimated token count of a list of entries. -/
def total_tokens {α : Type} (cost : α → Nat) (msgs : List α) : Nat :=
  (msgs.map cost).sum

/-- Counterexample to C7 as stated: with a budget of 3 tokens and a
system entry that alone costs 5 tokens (entries modelled by their costs),
the retained history still contains the system entry and its total of 5
exceeds the budget — the budget bound fails whenever the system entry
alone does not fit. -/
theorem c7_counterexample :
    ¬ total_tokens id (_manage_memory id 3 [5, 1]) ≤ 3 := by
  decide

theorem take_within_budget_sum {α : Type} (cost : α → Nat)
    (max_tokens : Nat) :
    ∀ (l : List α) (current : Nat), current ≤ max_tokens →
      current + total_tokens cost
        (take_within_budget cost max_tokens current l) ≤ max_tokens := by
  intro l
  induction l with
  | nil =>
      intro c hc
      simpa [take_within_budget, total_tokens] using hc
  | cons m rest ih =>
      intro c hc
      by_cases hover : c + cost m > max_tokens
      · simp [take_within_budget, hover, total_tokens]
        omega
      · have hle : c + cost m ≤ max_tokens := by omega
        have hrec := ih (c + cost m) hle
        simp only [take_within_budget, if_neg hover]
        simp only [total_tokens, List.map_cons, List.sum_cons] at hrec ⊢
        omega

/-- C7 as amended: whenever the system entry alone fits the budget, the
total estimated token count of the retained entries (system entry
included) does not exceed the budget, and the system entry is always the
first retained entry.  (The unamended bound fails only when the system
entry alone exceeds the budget, see the counterexample.) -/
theorem c7_amended_budget_invariant {α : Type} (cost : α → Nat)
    (max_tokens : Nat) (system_msg : α) (recent : List α)
    (h : cost system_msg ≤ max_tokens) :
    total_tokens cost
      (_manage_memory cost max_tokens (system_msg :: recent))
      ≤ max_tokens ∧
    (_manage_memory cost max_tokens (system_msg :: recent)).head?
      = some system_msg := by
  cases recent with
  | nil =>
      constructor
      · simpa [_manage_memory, total_tokens] using h
      · rfl
  | cons r rs =>
      constructor
      · have hsum := take_within_budget_sum cost max_tokens
          (r :: rs).reverse (cost system_msg) h
        simp only [_manage_memory, total_tokens, List.map_cons,
          List.sum_cons, List.map_reverse, List.sum_reverse]
        simp only [total_tokens] at hsum
        omega
      · rfl

/-- Witness for C7 (amended): budget 10, system entry of cost 3, further
entries of costs 4 and 5: the retained history is within budget and led
by the system entry. -/
theorem c7_witness :
    total_tokens id (_manage_memory id 10 [3, 4, 5]) ≤ 10 ∧
    (_manage_memory id 10 [3, 4, 5]).head? = some 3 :=
  c7_amended_budget_invariant id 10 3 [4, 5] (by decide)

/-- Counterexample to C9 as stated: `_manage_memory` does not leave the
stored log unchanged — with budget 3 and entry costs `[1, 2, 9]` the
stored history is replaced by the trimmed `[1]`. -/
theorem c9_counterexample :
    _manage_memory id 3 [1, 2, 9] ≠ [1, 2, 9] := by
  decide

theorem take_within_budget_prefix {α : Type} (cost : α → Nat)
    (max_tokens : Nat) :
    ∀ (l : List α) (current : Nat),
      (take_within_budget cost max_tokens current l) <+: l := by
  intro l
  induction l with
  | nil => intro c; simp [take_within_budget]
  | cons m rest ih =>
      intro c
      by_cases hover : c + cost m > max_tokens
      · simp [take_within_budget, hover]
      · simp only [take_within_budget, if_neg hover]
        obtain ⟨t, ht⟩ := ih (c + cost m)
        exact ⟨t, by simp [ht]⟩

/-- C9 as amended: the memory manager trims the stored log in place
rather than computing a read-only view — the new stored history is the
system entry followed by some suffix of the old non-system entries
(retained entries unchanged and in order; everything before that suffix
is permanently removed from the stored log). -/
theorem c9_amended_trims_to_suffix {α : Type} (cost : α → Nat)
    (max_tokens : Nat) (system_msg : α) (recent : List α) :
    ∃ kept, _manage_memory cost max_tokens (system_msg :: recent)
      = system_msg :: kept ∧ kept <:+ recent := by
  cases recent with
  | nil => exact ⟨[], rfl, List.nil_suffix⟩
  | cons r rs =>
      refine ⟨(take_within_budget cost max_tokens (cost system_msg)
        (r :: rs).reverse).reverse, rfl, ?_⟩
      have hp := take_within_budget_prefix cost max_tokens
        (r :: rs).reverse (cost system_msg)
      have hs := List.reverse_suffix.mpr hp
      rwa [List.reverse_reverse] at hs

/-! ## The pattern-extraction fallback (`Player.act`, lines 259-275) -/

/-- The single-line part of `re.search(r"(-?\d+)(?!.*\d)", response)`: on
a line, the match is the last maximal digit run, together with an
immediately preceding '-' when one is present (the negative lookahead
forces the match to end at the line's last digit; leftmost matching then
extends it to the whole run and an optional sign). -/
def line_last_integer (line : List Char) : Option (List Char) :=
  let rev := (line.reverse).dropWhile (fun c => !c.isDigit)
  if rev = [] then none
  else
    let run := rev.takeWhile Char.isDigit
    match rev.drop run.length with
    | '-' :: _ => some ('-' :: run.reverse)
    | _ => some run.reverse

/-- The '\n'-separated lines of the text (Python's `.` never matches a
newline, so the regex lookahead scans only up to the end of the current
line). -/
def split_lines : List Char → List (List Char)
  | [] => [[]]
  | c :: rest =>
      if c = '\n' then [] :: split_lines rest
      else
        match split_lines rest with
        | [] => [[c]]
        | l :: ls => (c :: l) :: ls

/-- The match of `re.search(r"(-?\d+)(?!.*\d)", response)` over the whole
text: since the lookahead `.*\d` cannot cross a newline, a digit run
matches as soon as no digit follows it on its own line, and leftmost
search therefore lands on the FIRST line containing any digit and
extracts that line's last (optionally signed) integer. -/
def last_integer_match (s : List Char) : Option (List Char) :=
  ((split_lines s).find? (fun line => line.any Char.isDigit)).bind
    line_last_integer

/-- The regex fallback of `Player.act` (lines 259-275), reached when
structured output fails and no judge (arbitration) client is configured:
return the matched integer as a string, or the raw response unmodified
when nothing matches. -/
def regex_fallback (response : String) : String :=
  match last_integer_match response.data with
  | some cs => String.mk cs
  | none => response

/-- Counterexample to C8 as stated: on the multiline reply "a3b\n7" the
last integer appearing in the text is 7, but the fallback extracts "3" —
the last integer of the FIRST digit-containing line — because the
lookahead of `(-?\d+)(?!.*\d)` does not cross newlines. -/
theorem c8_counterexample_multiline :
    regex_fallback "a3b\n7" = "3" ∧ regex_fallback "a3b\n7" ≠ "7" := by
  decide

theorem split_lines_append (l2 : List Char) :
    ∀ l1 : List Char, '\n' ∉ l1 →
      split_lines (l1 ++ '\n' :: l2) = l1 :: split_lines l2 := by
  intro l1
  induction l1 with
  | nil => intro _; simp [split_lines]
  | cons c l1' ih =>
      intro hmem
      have hc : ¬ c = '\n' := fun h => hmem (h ▸ List.mem_cons_self c l1')
      have hrec := ih (fun h => hmem (List.mem_cons_of_mem c h))
      simp only [List.cons_append, split_lines, if_neg hc]
      rw [List.append_eq, hrec]

theorem mem_of_mem_split_lines :
    ∀ (s line : List Char), line ∈ split_lines s → ∀ c ∈ line, c ∈ s := by
  intro s
  induction s with
  | nil =>
      intro line hline c hc
      simp [split_lines] at hline
      subst hline
      simp at hc
  | cons a rest ih =>
      intro line hline c hc
      by_cases ha : a = '\n'
      · simp only [split_lines, if_pos ha] at hline
        rcases List.mem_cons.mp hline with h | h
        · subst h; simp at hc
        · exact List.mem_cons_of_mem a (ih line h c hc)
      · simp only [split_lines, if_neg ha] at hline
        cases hr : split_lines rest with
        | nil =>
            rw [hr] at hline
            simp at hline
            subst hline
            simp at hc
            simp [hc]
        | cons l ls =>
            rw [hr] at hline
            rcases List.mem_cons.mp hline with h | h
            · subst h
              rcases List.mem_cons.mp hc with h' | h'
              · simp [h']
              · exact List.mem_cons_of_mem a
                  (ih l (by rw [hr]; simp) c h')
            · exact List.mem_cons_of_mem a
                (ih line (by rw [hr]; simp [h]) c hc)

/-- C8 as amended: the fallback extracts the last (optionally signed)
integer of the FIRST line of the reply that contains any digit (the
lookahead of the Python regex does not cross newlines) — in particular,
single-line prose with several embedded digit runs and trailing integer 7
still yields "7", accepted by the caller from {1..8, abstain}, and a
trailing signed integer keeps its sign, but on "suspect 2\n3" the
extraction is "2" from the first line; in general, prefixing any
digit-containing newline-free line makes the extraction depend on that
line alone; and on any text with no digit at all the raw text is
returned unmodified, which the caller fails to parse and records as the
abstain sentinel -1. -/
theorem c8_amended_first_digit_line :
    regex_fallback "I considered 3 and 12 but my final choice is 7"
      = "7" ∧
    vote_of_response [1, 2, 3, 4, 5, 6, 7, 8]
      (regex_fallback "I considered 3 and 12 but my final choice is 7")
      = 7 ∧
    regex_fallback "confidence -12" = "-12" ∧
    regex_fallback "suspect 2\n3" = "2" ∧
    (∀ l1 l2 : List Char, '\n' ∉ l1 → l1.any Char.isDigit = true →
      last_integer_match (l1 ++ '\n' :: l2) = line_last_integer l1) ∧
    (∀ s : String, (∀ c ∈ s.data, c.isDigit = false) →
      regex_fallback s = s ∧
      vote_of_response [1, 2, 3, 4, 5, 6, 7, 8] s = -1) := by
  refine ⟨by decide, by decide, by decide, by decide, ?_, ?_⟩
  · intro l1 l2 hmem hdig
    unfold last_integer_match
    rw [split_lines_append l2 l1 hmem]
    simp [List.find?, hdig]
  ·
    intro s h
    have hnone : last_integer_match s.data = none := by
      unfold last_integer_match
      rw [List.find?_eq_none.mpr]
      · rfl
      · intro line hline hany
        obtain ⟨c, hc, hcd⟩ := List.any_eq_true.mp hany
        have := h c (mem_of_mem_split_lines s.data line hline c hc)
        rw [hcd] at this
        simp at this
    constructor
    · simp [regex_fallback, hnone]
    · have hsub : ∀ c ∈ strip_ws s.data, c.isDigit = false := by
        intro c hc
        apply h
        have h1 := (List.dropWhile_sublist (l := s.data)
          (p := Char.isWhitespace)).subset
        have h2 := (List.dropWhile_sublist
          (l := (s.data.dropWhile Char.isWhitespace).reverse)
          (p := Char.isWhitespace)).subset
        have hc' := List.mem_reverse.mp hc
        exact h1 (List.mem_reverse.mp (h2 hc'))
      have hparse : parse_int? s = none := by
        unfold parse_int?
        cases hcs : strip_ws s.data with
        | nil => rfl
        | cons c rest =>
            rw [hcs] at hsub
            by_cases hneg : c = '-'
            · simp only [hneg]
              simp
              intro hne
              obtain ⟨c0, r', rfl⟩ := List.exists_cons_of_ne_nil hne
              exact ⟨c0, by simp, hsub c0 (by simp)⟩
            · by_cases hplus : c = '+'
              · simp only [hplus]
                simp [hneg]
                intro hne
                obtain ⟨c0, r', rfl⟩ := List.exists_cons_of_ne_nil hne
                exact ⟨c0, by simp, hsub c0 (by simp)⟩
              · simp [hneg, hplus]
                intro hcd
                have hf := hsub c (by simp)
                simp [hcd] at hf
      simp [vote_of_response, hparse]

/-- Witness for C8 (amended): prefixing the digit-containing newline-free
line "42" to "9" makes the extraction depend on "42" alone, and the
digit-free reply "xyz" comes back unmodified and is recorded as the
abstain sentinel by the caller. -/
theorem c8_witness :
    last_integer_match (['4', '2'] ++ '\n' :: ['9'])
      = line_last_integer ['4', '2'] ∧
    regex_fallback "xyz" = "xyz" ∧
    vote_of_response [1, 2, 3, 4, 5, 6, 7, 8] "xyz" = -1 :=
  ⟨c8_amended_first_digit_line.2.2.2.2.1 ['4', '2'] ['9']
      (by decide) (by decide),
    (c8_amended_first_digit_line.2.2.2.2.2 "xyz" (by decide)).1,
    (c8_amended_first_digit_line.2.2.2.2.2 "xyz" (by decide)).2⟩

end Wolf
